import Mathlib

/-!
Verification of the MCP server configuration synchronizer of `ai-cli`.

The development shallowly embeds `src/mcp/servers.rs`, `src/mcp/targets.rs`
and `src/mcp/actions.rs`.  File systems are modelled per target as a
`FileState`: the file is absent, present but unparseable, or present with a
parsed document.  JSON documents (`serde_json::Value`) are modelled by
`JValue`; TOML documents (`toml_edit::DocumentMut`) by association lists of
`TItem`.  Rust panics (`unwrap` on `None`) are modelled by the `panicked`
result; parse failures by `parseError`.  An operation that errors or panics
leaves the file state unchanged, exactly as the code does (both happen
before any write).
-/

set_option autoImplicit false

namespace AiCli

/-- Association-list lookup by string key (first matching entry),
modelling `Map::get` of `serde_json` and `Table::get` of `toml_edit`. -/
def lookupKey {α : Type} : List (String × α) → String → Option α
  | [], _ => none
  | (k', v) :: t, k => if k' = k then some v else lookupKey t k

/-- Key membership, modelling `contains_key`. -/
def containsKey {α : Type} (l : List (String × α)) (k : String) : Bool :=
  (lookupKey l k).isSome

/-- Association-list insert-or-replace, modelling `map[key] = value`:
replaces the first entry with that key in place, else appends. -/
def setKey {α : Type} : List (String × α) → String → α → List (String × α)
  | [], k, v => [(k, v)]
  | (k', v') :: t, k, v => if k' = k then (k', v) :: t else (k', v') :: setKey t k v

/-- Association-list removal, modelling `map.remove(key)`. -/
def removeKey {α : Type} : List (String × α) → String → List (String × α)
  | [], _ => []
  | (k', v') :: t, k => if k' = k then removeKey t k else (k', v') :: removeKey t k

/-- `serde_json::Value`. -/
inductive JValue : Type
  | null
  | bool (b : Bool)
  | num (n : Int)
  | str (s : String)
  | arr (xs : List JValue)
  | obj (kvs : List (String × JValue))

/-- `Value::is_object`. -/
def JValue.isObj : JValue → Bool
  | .obj _ => true
  | _ => false

/-- `Value::get(key)` with a string index: lookup on objects, `None` on
everything else (`navigate_to_key` is exactly this). -/
def jGet : JValue → String → Option JValue
  | .obj m, k => lookupKey m k
  | _, _ => none

/-- A TOML item (`toml_edit::Item`), as far as the adapter distinguishes
them: a (non-inline) table, a string value, an array-of-strings value, or
any other non-table item (ints, bools, inline tables, dates, ...), all of
which behave alike under `as_table` / `as_table_mut`. -/
inductive TItem : Type
  | table (kvs : List (String × TItem))
  | str (s : String)
  | arr (xs : List String)
  | other

/-- `Item::as_table` succeeds exactly on `Item::Table`. -/
def TItem.isTable : TItem → Bool
  | .table _ => true
  | _ => false

/-- A parsed TOML document: the root table of a `DocumentMut`. -/
abbrev TomlDoc := List (String × TItem)

/-- The on-disk state of one target's configuration file: absent, present
but not syntactically valid in its declared format, or parsed. -/
inductive FileState (δ : Type) : Type
  | absent
  | invalid
  | valid (doc : δ)

/-- Result of an enable/disable call: `Ok(())`, a propagated parse error,
or a Rust panic (an `unwrap` of `None`). -/
inductive OpRes : Type
  | ok
  | parseError
  | panicked
  deriving DecidableEq, Repr

/-- Result of an `is_enabled` call (`Result<bool>`). -/
inductive BoolRes : Type
  | ok (b : Bool)
  | parseError
  deriving DecidableEq, Repr

/-- An MCP server record (`McpServer` in `mcp/servers.rs`). -/
structure McpServer where
  id : String
  name : String
  args : List String
  description : String

/-- `servers::linear`. -/
def linear : McpServer :=
  { id := "linear", name := "Linear",
    args := ["mcp-remote", "https://mcp.linear.app/mcp"],
    description := "Linear issue tracking integration" }

/-- `servers::playwright`. -/
def playwright : McpServer :=
  { id := "playwright", name := "Playwright",
    args := ["@playwright/mcp@latest"],
    description := "Browser automation with Playwright" }

/-- `servers::catalog`. -/
def serversCatalog : List McpServer := [linear, playwright]

/-- `servers::find`. -/
def findServer (id : String) : Option McpServer :=
  serversCatalog.find? (fun s => s.id == id)

/-- `ConfigMethod` in `mcp/targets.rs`. -/
inductive ConfigMethod : Type
  | jsonConfig (path : String) (servers_key : String)
      (server_name_override : Option String)
      (type_value : Option String) (include_tools_field : Bool)
  | tomlConfig (path : String)

/-- `McpTarget` in `mcp/targets.rs`. -/
structure McpTarget where
  name : String
  binary_name : String
  config_method : ConfigMethod

/-- `targets::claude_code`. -/
def claude_code : McpTarget :=
  { name := "Claude Code", binary_name := "claude",
    config_method := .jsonConfig "~/.claude.json" "mcpServers" none (some "stdio") false }

/-- `targets::gemini_cli`. -/
def gemini_cli : McpTarget :=
  { name := "Gemini CLI", binary_name := "gemini",
    config_method := .jsonConfig "~/.gemini/settings.json" "mcpServers" none none false }

/-- `targets::codex_cli`. -/
def codex_cli : McpTarget :=
  { name := "Codex CLI", binary_name := "codex",
    config_method := .tomlConfig "~/.codex/config.toml" }

/-- `targets::amp`. -/
def amp : McpTarget :=
  { name := "Amp", binary_name := "amp",
    config_method := .jsonConfig "~/.config/amp/settings.json" "amp.mcpServers" none none false }

/-- `targets::cursor`. -/
def cursor : McpTarget :=
  { name := "Cursor", binary_name := "cursor",
    config_method := .jsonConfig "~/.cursor/mcp.json" "mcpServers" none none false }

/-- `targets::copilot_cli`. -/
def copilot_cli : McpTarget :=
  { name := "Copilot CLI", binary_name := "copilot",
    config_method := .jsonConfig "~/.copilot/mcp-config.json" "mcpServers" none (some "local") true }

/-- `targets::catalog`. -/
def targetsCatalog : List McpTarget :=
  [claude_code, gemini_cli, codex_cli, amp, cursor, copilot_cli]

/-! ## JSON config helpers (`mcp/targets.rs`) -/

/-- The sub-entry `enable_in_json` builds for a server: `{"command": "npx",
"args": server.args}`, then `type` when `type_value` is set, `env = {}` when
that type is `"stdio"`, and `tools = ["*"]` when `include_tools_field`. -/
def mkServerConfig (server : McpServer) (type_value : Option String)
    (include_tools_field : Bool) : JValue :=
  let base : List (String × JValue) :=
    [("command", .str "npx"), ("args", .arr (server.args.map .str))]
  let withType : List (String × JValue) :=
    match type_value with
    | some t =>
        let b := setKey base "type" (.str t)
        if t = "stdio" then setKey b "env" (.obj []) else b
    | none => base
  .obj (if include_tools_field then setKey withType "tools" (.arr [.str "*"]) else withType)

/-- The object `navigate_or_create` leaves at `servers_key`: the existing
object there, or the empty object when the key is absent or holds a
non-object value. -/
def serversUnder (m : List (String × JValue)) (servers_key : String) :
    List (String × JValue) :=
  match lookupKey m servers_key with
  | some (.obj s) => s
  | _ => []

/-- The in-memory step of `enable_in_json` on a parsed root document:
`navigate_or_create` (replace a non-object value at `servers_key` with `{}`;
`serde_json` index assignment turns a `Null` root into an object and panics
on any other non-object root), then `servers_obj[server_name] = config`. -/
def enableJsonDoc (servers_key server_name : String) (cfg : JValue) :
    JValue → OpRes × JValue
  | .obj m =>
      (.ok, .obj (setKey m servers_key
        (.obj (setKey (serversUnder m servers_key) server_name cfg))))
  | .null => (.ok, .obj [(servers_key, .obj [(server_name, cfg)])])
  | v => (.panicked, v)

/-- `enable_in_json`: read (absent file becomes `{}`; unparseable file is a
`ParseError`), add the server sub-entry, write back. -/
def enable_in_json (servers_key server_name : String) (server : McpServer)
    (type_value : Option String) (include_tools_field : Bool) :
    FileState JValue → OpRes × FileState JValue
  | .absent =>
      match enableJsonDoc servers_key server_name
          (mkServerConfig server type_value include_tools_field) .null with
      | (r, d) => (r, if r = .ok then .valid d else .absent)
  | .invalid => (.parseError, .invalid)
  | .valid doc =>
      match enableJsonDoc servers_key server_name
          (mkServerConfig server type_value include_tools_field) doc with
      | (r, d) => (r, if r = .ok then .valid d else .valid doc)

/-- The in-memory step of `disable_in_json`: remove `server_name` from the
object at `servers_key` when that value is an object, else do nothing. -/
def disableJsonDoc (servers_key server_name : String) : JValue → JValue
  | .obj m =>
      match lookupKey m servers_key with
      | some (.obj s) => .obj (setKey m servers_key (.obj (removeKey s server_name)))
      | _ => .obj m
  | v => v

/-- `disable_in_json`: no-op on an absent file, `ParseError` on an
unparseable one, otherwise remove the server's key and write back. -/
def disable_in_json (servers_key server_name : String) :
    FileState JValue → OpRes × FileState JValue
  | .absent => (.ok, .absent)
  | .invalid => (.parseError, .invalid)
  | .valid doc => (.ok, .valid (disableJsonDoc servers_key server_name doc))

/-- `is_enabled_in_json`: `false` for an absent file, `ParseError` for an
unparseable one, else presence of `server_name` under `servers_key`. -/
def is_enabled_in_json (servers_key server_name : String) :
    FileState JValue → BoolRes
  | .absent => .ok false
  | .invalid => .parseError
  | .valid doc =>
      .ok (match jGet doc servers_key with
           | some v => (jGet v server_name).isSome
           | none => false)

/-! ## TOML config helpers (`mcp/targets.rs`) -/

/-- The in-memory step of `enable_in_toml`: ensure a `mcp_servers` table
(`doc["mcp_servers"] = toml_edit::table()` only when the key is absent),
`unwrap` it as a table (panics when the existing item is not a table),
ensure the server's sub-table likewise, then set `command` and `args`. -/
def enableTomlDoc (server : McpServer) (doc : TomlDoc) : OpRes × TomlDoc :=
  let doc1 := if containsKey doc "mcp_servers" then doc
              else setKey doc "mcp_servers" (.table [])
  match lookupKey doc1 "mcp_servers" with
  | some (.table m) =>
      let m1 := if containsKey m server.id then m else setKey m server.id (.table [])
      match lookupKey m1 server.id with
      | some (.table st) =>
          let st1 := setKey (setKey st "command" (.str "npx")) "args" (.arr server.args)
          (.ok, setKey doc1 "mcp_servers" (.table (setKey m1 server.id (.table st1))))
      | _ => (.panicked, doc)
  | _ => (.panicked, doc)

/-- `enable_in_toml`: read (absent file becomes an empty document;
unparseable file is a `ParseError`), add the server tables, write back. -/
def enable_in_toml (server : McpServer) :
    FileState TomlDoc → OpRes × FileState TomlDoc
  | .absent =>
      match enableTomlDoc server [] with
      | (r, d) => (r, if r = .ok then .valid d else .absent)
  | .invalid => (.parseError, .invalid)
  | .valid doc =>
      match enableTomlDoc server doc with
      | (r, d) => (r, if r = .ok then .valid d else .valid doc)

/-- The in-memory step of `disable_in_toml`: when `mcp_servers` is a table,
remove the server's key from it; otherwise do nothing. -/
def disableTomlDoc (server : McpServer) (doc : TomlDoc) : TomlDoc :=
  match lookupKey doc "mcp_servers" with
  | some (.table m) => setKey doc "mcp_servers" (.table (removeKey m server.id))
  | _ => doc

/-- `disable_in_toml`: no-op on an absent file, `ParseError` on an
unparseable one, otherwise remove the server's table and write back. -/
def disable_in_toml (server : McpServer) :
    FileState TomlDoc → OpRes × FileState TomlDoc
  | .absent => (.ok, .absent)
  | .invalid => (.parseError, .invalid)
  | .valid doc => (.ok, .valid (disableTomlDoc server doc))

/-- `is_enabled_in_toml`: `false` for an absent file, `ParseError` for an
unparseable one, else membership of the server's id in the `mcp_servers`
table (any non-table `mcp_servers` counts as no servers). -/
def is_enabled_in_toml (server : McpServer) : FileState TomlDoc → BoolRes
  | .absent => .ok false
  | .invalid => .parseError
  | .valid doc =>
      .ok (match lookupKey doc "mcp_servers" with
           | some (.table m) => containsKey m server.id
           | _ => false)

/-! ## Target-level dispatch (`McpTarget` methods) -/

/-- The two on-disk states a target's configuration can be in, tagged by
format. -/
inductive ConfigState : Type
  | json (fs : FileState JValue)
  | toml (fs : FileState TomlDoc)

/-- Whether a state carries the format the target's config method declares.
In the Rust code this holds by construction: a JSON target's file is always
read by the JSON helpers and vice versa. -/
def ConfigMethod.matchesState : ConfigMethod → ConfigState → Bool
  | .jsonConfig .., .json _ => true
  | .tomlConfig _, .toml _ => true
  | _, _ => false

/-- `McpTarget::enable_server`: dispatch on the config method, with the
JSON server name `server_name_override.unwrap_or(server.id)`.  (The format
mismatch branch is unreachable: a target only ever holds a state of its own
format.) -/
def McpTarget.enable_server (t : McpTarget) (server : McpServer) :
    ConfigState → OpRes × ConfigState
  | .json fs =>
      match t.config_method with
      | .jsonConfig _ sk ov tv itf =>
          match enable_in_json sk (ov.getD server.id) server tv itf fs with
          | (r, fs') => (r, .json fs')
      | .tomlConfig _ => (.parseError, .json fs)
  | .toml fs =>
      match t.config_method with
      | .tomlConfig _ =>
          match enable_in_toml server fs with
          | (r, fs') => (r, .toml fs')
      | .jsonConfig .. => (.parseError, .toml fs)

/-- `McpTarget::disable_server`. -/
def McpTarget.disable_server (t : McpTarget) (server : McpServer) :
    ConfigState → OpRes × ConfigState
  | .json fs =>
      match t.config_method with
      | .jsonConfig _ sk ov _ _ =>
          match disable_in_json sk (ov.getD server.id) fs with
          | (r, fs') => (r, .json fs')
      | .tomlConfig _ => (.parseError, .json fs)
  | .toml fs =>
      match t.config_method with
      | .tomlConfig _ =>
          match disable_in_toml server fs with
          | (r, fs') => (r, .toml fs')
      | .jsonConfig .. => (.parseError, .toml fs)

/-- `McpTarget::is_server_enabled`. -/
def McpTarget.is_server_enabled (t : McpTarget) (server : McpServer) :
    ConfigState → BoolRes
  | .json fs =>
      match t.config_method with
      | .jsonConfig _ sk ov _ _ => is_enabled_in_json sk (ov.getD server.id) fs
      | .tomlConfig _ => .parseError
  | .toml fs =>
      match t.config_method with
      | .tomlConfig _ => is_enabled_in_toml server fs
      | .jsonConfig .. => .parseError

/-- Whether a configuration state is absent or parsed (not an unparseable
existing file). -/
def ConfigState.readable : ConfigState → Bool
  | .json .invalid => false
  | .toml .invalid => false
  | _ => true

/-- The semantic content at `servers_key.server_name` of a JSON document:
the server sub-entry a reader of the file would see. -/
def jGet2 (doc : JValue) (k n : String) : Option JValue :=
  (jGet doc k).bind (fun v => jGet v n)

/-- The semantic content at `mcp_servers.<id>` of a TOML document: the
server sub-table a reader of the file would see. -/
def tEntry (doc : TomlDoc) (id : String) : Option TItem :=
  match lookupKey doc "mcp_servers" with
  | some (.table m) => lookupKey m id
  | _ => none

/-- One field of a server's sub-table in a TOML document, as a reader of
the file would see it. -/
def tEntryField (doc : TomlDoc) (id field : String) : Option TItem :=
  match tEntry doc id with
  | some (.table st) => lookupKey st field
  | _ => none

/-! ## Orchestration actions (`mcp/actions.rs`) -/

/-- `ServerStatus` in `mcp/actions.rs`. -/
inductive ServerStatus : Type
  | enabled
  | disabled
  | unknown
  | notInstalled
  deriving DecidableEq, Repr

/-- The outside world the actions see: which targets' probe binaries are
installed, and each target's configuration file, keyed by target name.  A
target absent from `configs` has no configuration file yet. -/
structure Env where
  installed : List String
  configs : List (String × ConfigState)

/-- The empty file state of a target's declared format. -/
def ConfigMethod.emptyState : ConfigMethod → ConfigState
  | .jsonConfig .. => .json .absent
  | .tomlConfig _ => .toml .absent

/-- The configuration state of one target in an environment. -/
def Env.getConfig (env : Env) (t : McpTarget) : ConfigState :=
  (lookupKey env.configs t.name).getD t.config_method.emptyState

/-- Overwrite one target's configuration state. -/
def Env.setConfig (env : Env) (t : McpTarget) (cs : ConfigState) : Env :=
  { env with configs := setKey env.configs t.name cs }

/-- `target.is_installed()`, as an oracle of the environment. -/
def Env.isInstalled (env : Env) (t : McpTarget) : Bool :=
  env.installed.contains t.name

/-- The status one worker of `check_statuses_parallel` computes for one
(target, server) pair: `NotInstalled` when the target is not installed,
else `is_server_enabled` mapped `Ok(true) -> Enabled`, `Ok(false) ->
Disabled`, `Err(_) -> Unknown`. -/
def statusOf (env : Env) (t : McpTarget) (server : McpServer) : ServerStatus :=
  if env.isInstalled t then
    match t.is_server_enabled server (env.getConfig t) with
    | .ok true => .enabled
    | .ok false => .disabled
    | .parseError => .unknown
  else .notInstalled

/-- One worker's batch of insertions into the shared map: an entry for
every server of its target. -/
def statusRow (env : Env) (t : McpTarget) :
    List McpServer → List ((String × String) × ServerStatus)
  | [] => []
  | s :: ss => ((t.name, s.id), statusOf env t s) :: statusRow env t ss

/-- `check_statuses_parallel`: the aggregated contents of the shared map
after every worker has been joined (workers write disjoint key ranges, one
per target, so the aggregate is order-independent). -/
def check_statuses_parallel (env : Env) :
    List McpTarget → List McpServer → List ((String × String) × ServerStatus)
  | [], _ => []
  | t :: ts, servers => statusRow env t servers ++ check_statuses_parallel env ts servers

/-- The selector resolution shared by `handle_enable` and `handle_disable`:
`"all"` means the whole catalog, anything else a single server looked up by
id (`None` models the `Unknown server` error). -/
def resolveServers (server_name : String) : Option (List McpServer) :=
  if server_name = "all" then some serversCatalog
  else (findServer server_name).map (fun s => [s])

/-- The inner loop of `handle_enable` on one installed target: enable every
selected server, keeping whatever state each call leaves (failures do not
stop the remaining servers). -/
def enableOnTarget (t : McpTarget) (servers : List McpServer) (env : Env) : Env :=
  servers.foldl (fun e s => e.setConfig t (t.enable_server s (e.getConfig t)).2) env

/-- The inner loop of `handle_disable` on one installed target. -/
def disableOnTarget (t : McpTarget) (servers : List McpServer) (env : Env) : Env :=
  servers.foldl (fun e s => e.setConfig t (t.disable_server s (e.getConfig t)).2) env

/-- Result of a batch action: the `Unknown server` error aborts before any
file is read or written; otherwise the run completes. -/
inductive BatchRes : Type
  | ok
  | unknownServer
  deriving DecidableEq, Repr

/-- `handle_enable`: resolve the selector (failing with `Unknown server`
before touching any file), then walk the target catalog, skipping targets
that are not installed and enabling every selected server on the rest. -/
def handle_enable (server_name : String) (targets : List McpTarget) (env : Env) :
    BatchRes × Env :=
  match resolveServers server_name with
  | none => (.unknownServer, env)
  | some servers =>
      (.ok, targets.foldl
        (fun e t => if e.isInstalled t then enableOnTarget t servers e else e) env)

/-- `handle_disable`: symmetric to `handle_enable` using `disable_server`. -/
def handle_disable (server_name : String) (targets : List McpTarget) (env : Env) :
    BatchRes × Env :=
  match resolveServers server_name with
  | none => (.unknownServer, env)
  | some servers =>
      (.ok, targets.foldl
        (fun e t => if e.isInstalled t then disableOnTarget t servers e else e) env)

/-! ## Association-list lemmas -/

theorem lookup_setKey_self {α : Type} (l : List (String × α)) (k : String) (v : α) :
    lookupKey (setKey l k v) k = some v := by
  induction l with
  | nil => simp [setKey, lookupKey]
  | cons p t ih =>
    obtain ⟨k', v'⟩ := p
    by_cases h : k' = k
    · simp [setKey, lookupKey, h]
    · simp [setKey, lookupKey, h, ih]

theorem lookup_setKey_ne {α : Type} (l : List (String × α)) (k k' : String) (v : α)
    (h : k' ≠ k) : lookupKey (setKey l k v) k' = lookupKey l k' := by
  induction l with
  | nil => simp [setKey, lookupKey, Ne.symm h]
  | cons p t ih =>
    obtain ⟨k₀, v₀⟩ := p
    by_cases hk : k₀ = k
    · have hne : k₀ ≠ k' := by rw [hk]; exact Ne.symm h
      simp only [setKey, if_pos hk, lookupKey, if_neg hne]
    · simp only [setKey, if_neg hk, lookupKey, ih]

theorem setKey_of_lookup_eq {α : Type} (l : List (String × α)) (k : String) (v : α)
    (h : lookupKey l k = some v) : setKey l k v = l := by
  induction l with
  | nil => simp [lookupKey] at h
  | cons p t ih =>
    obtain ⟨k₀, v₀⟩ := p
    by_cases hk : k₀ = k
    · simp [lookupKey, hk] at h
      simp [setKey, hk, h]
    · simp [lookupKey, hk] at h
      simp [setKey, hk, ih h]

theorem lookup_removeKey_self {α : Type} (l : List (String × α)) (k : String) :
    lookupKey (removeKey l k) k = none := by
  induction l with
  | nil => simp [removeKey, lookupKey]
  | cons p t ih =>
    obtain ⟨k₀, v₀⟩ := p
    by_cases hk : k₀ = k
    · simp [removeKey, hk, ih]
    · simp [removeKey, lookupKey, hk, ih]

theorem lookup_removeKey_ne {α : Type} (l : List (String × α)) (k k' : String)
    (h : k' ≠ k) : lookupKey (removeKey l k) k' = lookupKey l k' := by
  induction l with
  | nil => simp [removeKey]
  | cons p t ih =>
    obtain ⟨k₀, v₀⟩ := p
    by_cases hk : k₀ = k
    · have hne : k₀ ≠ k' := by rw [hk]; exact Ne.symm h
      simp only [removeKey, if_pos hk, lookupKey, if_neg hne, ih]
    · simp only [removeKey, if_neg hk, lookupKey, ih]

theorem setKey_setKey {α : Type} (l : List (String × α)) (k : String) (v w : α) :
    setKey (setKey l k v) k w = setKey l k w := by
  induction l with
  | nil => simp [setKey]
  | cons p t ih =>
    obtain ⟨k₀, v₀⟩ := p
    by_cases hk : k₀ = k
    · simp only [setKey, if_pos hk]
    · simp only [setKey, if_neg hk, ih]

theorem removeKey_of_lookup_none {α : Type} (l : List (String × α)) (k : String)
    (h : lookupKey l k = none) : removeKey l k = l := by
  induction l with
  | nil => simp [removeKey]
  | cons p t ih =>
    obtain ⟨k₀, v₀⟩ := p
    by_cases hk : k₀ = k
    · simp [lookupKey, hk] at h
    · simp [lookupKey, hk] at h
      simp [removeKey, hk, ih h]

/-! ## JSON adapter lemmas -/

theorem jGet_some_inv (doc : JValue) (k : String) (v : JValue)
    (h : jGet doc k = some v) :
    ∃ m, doc = .obj m ∧ lookupKey m k = some v := by
  cases doc with
  | obj m => exact ⟨m, rfl, h⟩
  | null => simp [jGet] at h
  | bool b => simp [jGet] at h
  | num n => simp [jGet] at h
  | str s => simp [jGet] at h
  | arr xs => simp [jGet] at h

/-- Inversion of a successful `enable_in_json`: the underlying document
rewrite succeeded on the parsed (or synthesized empty) document. -/
theorem enable_in_json_ok_elim (sk sn : String) (srv : McpServer)
    (tv : Option String) (itf : Bool) (fs : FileState JValue) (d₁ : JValue)
    (h : enable_in_json sk sn srv tv itf fs = (.ok, .valid d₁)) :
    (fs = .absent ∧
      enableJsonDoc sk sn (mkServerConfig srv tv itf) .null = (.ok, d₁)) ∨
    (∃ doc, fs = .valid doc ∧
      enableJsonDoc sk sn (mkServerConfig srv tv itf) doc = (.ok, d₁)) := by
  cases fs with
  | absent =>
    left
    rcases he : enableJsonDoc sk sn (mkServerConfig srv tv itf) .null with ⟨r, d⟩
    simp only [enable_in_json, he] at h
    cases r with
    | ok => simp_all
    | parseError => simp_all
    | panicked => simp_all
  | invalid => simp [enable_in_json] at h
  | valid doc =>
    right
    refine ⟨doc, rfl, ?_⟩
    rcases he : enableJsonDoc sk sn (mkServerConfig srv tv itf) doc with ⟨r, d⟩
    simp only [enable_in_json, he] at h
    cases r with
    | ok => simp_all
    | parseError => simp_all
    | panicked => simp_all

/-- A successful `enableJsonDoc` leaves exactly the built sub-entry at
`servers_key.server_name`. -/
theorem enableJsonDoc_post (sk sn : String) (cfg doc d : JValue)
    (h : enableJsonDoc sk sn cfg doc = (.ok, d)) :
    jGet2 d sk sn = some cfg := by
  cases doc with
  | obj m =>
    simp only [enableJsonDoc, Prod.mk.injEq] at h
    rw [← h.2]
    simp [jGet2, jGet, lookup_setKey_self]
  | null =>
    simp only [enableJsonDoc, Prod.mk.injEq] at h
    rw [← h.2]
    simp [jGet2, jGet, lookupKey]
  | bool b => simp [enableJsonDoc] at h
  | num n => simp [enableJsonDoc] at h
  | str s => simp [enableJsonDoc] at h
  | arr xs => simp [enableJsonDoc] at h

/-- Frame: `enableJsonDoc` preserves every top-level key other than
`servers_key`. -/
theorem enableJsonDoc_frame_top (sk sn : String) (cfg doc d : JValue)
    (h : enableJsonDoc sk sn cfg doc = (.ok, d)) (k : String) (hk : k ≠ sk) :
    jGet d k = jGet doc k := by
  cases doc with
  | obj m =>
    simp only [enableJsonDoc, Prod.mk.injEq] at h
    rw [← h.2]
    simp [jGet, lookup_setKey_ne _ _ _ _ hk]
  | null =>
    simp only [enableJsonDoc, Prod.mk.injEq] at h
    rw [← h.2]
    simp [jGet, lookupKey, Ne.symm hk]
  | bool b => simp [enableJsonDoc] at h
  | num n => simp [enableJsonDoc] at h
  | str s => simp [enableJsonDoc] at h
  | arr xs => simp [enableJsonDoc] at h

/-- After a successful `enableJsonDoc` the servers key holds an object
whose `server_name` entry is the built sub-entry. -/
theorem enableJsonDoc_post_obj (sk sn : String) (cfg doc d : JValue)
    (h : enableJsonDoc sk sn cfg doc = (.ok, d)) :
    ∃ S, jGet d sk = some (.obj S) ∧ lookupKey S sn = some cfg := by
  cases doc with
  | obj m =>
    simp only [enableJsonDoc, Prod.mk.injEq] at h
    rw [← h.2]
    exact ⟨setKey (serversUnder m sk) sn cfg,
      by simp [jGet, lookup_setKey_self], lookup_setKey_self _ _ _⟩
  | null =>
    simp only [enableJsonDoc, Prod.mk.injEq] at h
    rw [← h.2]
    exact ⟨[(sn, cfg)], by simp [jGet, lookupKey], by simp [lookupKey]⟩
  | bool b => simp [enableJsonDoc] at h
  | num n => simp [enableJsonDoc] at h
  | str s => simp [enableJsonDoc] at h
  | arr xs => simp [enableJsonDoc] at h

/-- A document that already carries exactly the built sub-entry is a fixed
point of `enableJsonDoc`. -/
theorem enableJsonDoc_fixed (sk sn : String) (cfg d : JValue)
    (S : List (String × JValue)) (h1 : jGet d sk = some (.obj S))
    (h2 : lookupKey S sn = some cfg) :
    enableJsonDoc sk sn cfg d = (.ok, d) := by
  obtain ⟨m, rfl, hm⟩ := jGet_some_inv d sk (.obj S) h1
  simp only [enableJsonDoc, Prod.mk.injEq]
  have hs : serversUnder m sk = S := by simp [serversUnder, hm]
  rw [hs, setKey_of_lookup_eq S sn cfg h2, setKey_of_lookup_eq m sk (.obj S) hm]
  exact ⟨trivial, rfl⟩

/-- `enableJsonDoc` is idempotent on its successful results. -/
theorem enableJsonDoc_idem (sk sn : String) (cfg doc d : JValue)
    (h : enableJsonDoc sk sn cfg doc = (.ok, d)) :
    enableJsonDoc sk sn cfg d = (.ok, d) := by
  obtain ⟨S, h1, h2⟩ := enableJsonDoc_post_obj sk sn cfg doc d h
  exact enableJsonDoc_fixed sk sn cfg d S h1 h2

/-- A document whose servers key carries the server's entry reads back as
enabled. -/
theorem is_enabled_of_entry (sk sn : String) (d v : JValue)
    (h : jGet2 d sk sn = some v) :
    is_enabled_in_json sk sn (.valid d) = .ok true := by
  simp only [jGet2] at h
  cases hd : jGet d sk with
  | none => rw [hd] at h; simp at h
  | some w =>
    rw [hd] at h
    simp only [Option.some_bind] at h
    simp [is_enabled_in_json, hd, h]

/-- Frame: `disableJsonDoc` preserves every top-level key other than
`servers_key`. -/
theorem disableJsonDoc_frame_top (sk sn : String) (doc : JValue) (k : String)
    (hk : k ≠ sk) : jGet (disableJsonDoc sk sn doc) k = jGet doc k := by
  cases doc with
  | obj m =>
    cases hm : lookupKey m sk with
    | none => simp [disableJsonDoc, hm]
    | some v =>
      cases v with
      | obj s => simp [disableJsonDoc, hm, jGet, lookup_setKey_ne _ _ _ _ hk]
      | null => simp [disableJsonDoc, hm]
      | bool b => simp [disableJsonDoc, hm]
      | num n => simp [disableJsonDoc, hm]
      | str s => simp [disableJsonDoc, hm]
      | arr xs => simp [disableJsonDoc, hm]
  | null => rfl
  | bool b => rfl
  | num n => rfl
  | str s => rfl
  | arr xs => rfl

/-- Frame: `disableJsonDoc` preserves the sub-entry of every sibling server
other than `server_name`. -/
theorem disableJsonDoc_frame_sib (sk sn : String) (doc : JValue) (n : String)
    (hn : n ≠ sn) : jGet2 (disableJsonDoc sk sn doc) sk n = jGet2 doc sk n := by
  cases doc with
  | obj m =>
    cases hm : lookupKey m sk with
    | none => simp [disableJsonDoc, hm]
    | some v =>
      cases v with
      | obj s =>
        simp only [disableJsonDoc, hm, jGet2, jGet, lookup_setKey_self,
          Option.some_bind]
        exact lookup_removeKey_ne s sn n hn
      | null => simp [disableJsonDoc, hm]
      | bool b => simp [disableJsonDoc, hm]
      | num n' => simp [disableJsonDoc, hm]
      | str s => simp [disableJsonDoc, hm]
      | arr xs => simp [disableJsonDoc, hm]
  | null => rfl
  | bool b => rfl
  | num n' => rfl
  | str s => rfl
  | arr xs => rfl

/-- After `disableJsonDoc` the server reads back as not enabled. -/
theorem disableJsonDoc_not_enabled (sk sn : String) (doc : JValue) :
    is_enabled_in_json sk sn (.valid (disableJsonDoc sk sn doc)) = .ok false := by
  cases doc with
  | obj m =>
    cases hm : lookupKey m sk with
    | none => simp [disableJsonDoc, is_enabled_in_json, jGet, hm]
    | some v =>
      cases v with
      | obj s =>
        simp [disableJsonDoc, is_enabled_in_json, hm, jGet, lookup_setKey_self,
          lookup_removeKey_self]
      | null => simp [disableJsonDoc, is_enabled_in_json, jGet, hm]
      | bool b => simp [disableJsonDoc, is_enabled_in_json, jGet, hm]
      | num n => simp [disableJsonDoc, is_enabled_in_json, jGet, hm]
      | str s => simp [disableJsonDoc, is_enabled_in_json, jGet, hm]
      | arr xs => simp [disableJsonDoc, is_enabled_in_json, jGet, hm]
  | null => rfl
  | bool b => rfl
  | num n => rfl
  | str s => rfl
  | arr xs => rfl

/-- Disabling a server whose key is not present leaves the parsed document
unchanged. -/
theorem disableJsonDoc_noop (sk sn : String) (doc : JValue)
    (h : is_enabled_in_json sk sn (.valid doc) = .ok false) :
    disableJsonDoc sk sn doc = doc := by
  cases doc with
  | obj m =>
    cases hm : lookupKey m sk with
    | none => simp [disableJsonDoc, hm]
    | some v =>
      cases v with
      | obj s =>
        have hs : lookupKey s sn = none := by
          simp only [is_enabled_in_json, jGet, hm] at h
          cases hs' : lookupKey s sn with
          | none => rfl
          | some w => rw [hs'] at h; simp at h
        simp only [disableJsonDoc, hm, removeKey_of_lookup_none s sn hs,
          setKey_of_lookup_eq m sk (.obj s) hm]
      | null => simp [disableJsonDoc, hm]
      | bool b => simp [disableJsonDoc, hm]
      | num n => simp [disableJsonDoc, hm]
      | str s => simp [disableJsonDoc, hm]
      | arr xs => simp [disableJsonDoc, hm]
  | null => rfl
  | bool b => rfl
  | num n => rfl
  | str s => rfl
  | arr xs => rfl

/-- Frame: `enableJsonDoc` preserves the sub-entry of every sibling server
other than `server_name`. -/
theorem enableJsonDoc_frame_sib (sk sn : String) (cfg doc d : JValue)
    (h : enableJsonDoc sk sn cfg doc = (.ok, d)) (n : String) (hn : n ≠ sn) :
    jGet2 d sk n = jGet2 doc sk n := by
  cases doc with
  | obj m =>
    simp only [enableJsonDoc, Prod.mk.injEq] at h
    rw [← h.2]
    simp only [jGet2, jGet, lookup_setKey_self, Option.some_bind]
    rw [lookup_setKey_ne _ _ _ _ hn]
    cases hm : lookupKey m sk with
    | none => simp [serversUnder, hm, lookupKey]
    | some v =>
      cases v with
      | obj s => simp [serversUnder, hm, jGet]
      | null => simp [serversUnder, hm, jGet, lookupKey]
      | bool b => simp [serversUnder, hm, jGet, lookupKey]
      | num n' => simp [serversUnder, hm, jGet, lookupKey]
      | str s => simp [serversUnder, hm, jGet, lookupKey]
      | arr xs => simp [serversUnder, hm, jGet, lookupKey]
  | null =>
    simp only [enableJsonDoc, Prod.mk.injEq] at h
    rw [← h.2]
    simp [jGet2, jGet, lookupKey, Ne.symm hn]
  | bool b => simp [enableJsonDoc] at h
  | num n' => simp [enableJsonDoc] at h
  | str s => simp [enableJsonDoc] at h
  | arr xs => simp [enableJsonDoc] at h

/-! ## TOML adapter lemmas -/

/-- `enableTomlDoc` when the document has no `mcp_servers` key: both tables
are created and the fresh entry carries exactly `command` and `args`. -/
theorem enableTomlDoc_none (srv : McpServer) (doc : TomlDoc)
    (h : lookupKey doc "mcp_servers" = none) :
    enableTomlDoc srv doc = (.ok, setKey doc "mcp_servers"
      (.table [(srv.id, .table [("command", .str "npx"), ("args", .arr srv.args)])])) := by
  simp only [enableTomlDoc, containsKey, h, Option.isSome_none, Bool.false_eq_true,
    if_false, lookup_setKey_self, setKey_setKey]
  simp [setKey, lookupKey, containsKey]

/-- `enableTomlDoc` when `mcp_servers` is a table lacking the server: a
fresh sub-table carrying exactly `command` and `args` is inserted. -/
theorem enableTomlDoc_table_none (srv : McpServer) (doc : TomlDoc)
    (m : TomlDoc) (h : lookupKey doc "mcp_servers" = some (.table m))
    (h2 : lookupKey m srv.id = none) :
    enableTomlDoc srv doc = (.ok, setKey doc "mcp_servers"
      (.table (setKey m srv.id
        (.table [("command", .str "npx"), ("args", .arr srv.args)])))) := by
  simp only [enableTomlDoc, containsKey, h, Option.isSome_some, if_true, h2,
    Option.isSome_none, Bool.false_eq_true, if_false, lookup_setKey_self,
    setKey_setKey]
  simp [setKey, lookupKey]

/-- `enableTomlDoc` when the server's sub-table already exists: its
`command` and `args` keys are overwritten in place. -/
theorem enableTomlDoc_table_table (srv : McpServer) (doc : TomlDoc)
    (m st : TomlDoc) (h : lookupKey doc "mcp_servers" = some (.table m))
    (h2 : lookupKey m srv.id = some (.table st)) :
    enableTomlDoc srv doc = (.ok, setKey doc "mcp_servers"
      (.table (setKey m srv.id
        (.table (setKey (setKey st "command" (.str "npx")) "args" (.arr srv.args)))))) := by
  simp only [enableTomlDoc, containsKey, h, Option.isSome_some, if_true, h2]

/-- `enableTomlDoc` panics (`as_table_mut().unwrap()` on `None`) when the
existing `mcp_servers` item is not a table. -/
theorem enableTomlDoc_nontable (srv : McpServer) (doc : TomlDoc) (v : TItem)
    (h : lookupKey doc "mcp_servers" = some v) (hv : v.isTable = false) :
    enableTomlDoc srv doc = (.panicked, doc) := by
  cases v with
  | table m => simp [TItem.isTable] at hv
  | str s => simp [enableTomlDoc, containsKey, h]
  | arr xs => simp [enableTomlDoc, containsKey, h]
  | other => simp [enableTomlDoc, containsKey, h]

/-- `enableTomlDoc` panics when the server's existing entry under
`mcp_servers` is not a table. -/
theorem enableTomlDoc_entry_nontable (srv : McpServer) (doc : TomlDoc)
    (m : TomlDoc) (v : TItem) (h : lookupKey doc "mcp_servers" = some (.table m))
    (h2 : lookupKey m srv.id = some v) (hv : v.isTable = false) :
    enableTomlDoc srv doc = (.panicked, doc) := by
  cases v with
  | table st => simp [TItem.isTable] at hv
  | str s => simp [enableTomlDoc, containsKey, h, h2]
  | arr xs => simp [enableTomlDoc, containsKey, h, h2]
  | other => simp [enableTomlDoc, containsKey, h, h2]

/-- Structure of any successful `enableTomlDoc` result: the whole rewrite
happens under the `mcp_servers` key, the untouched sibling entries are those
of the input document, and the server's sub-table carries the launch
command and arguments. -/
theorem enableTomlDoc_ok_shape (srv : McpServer) (doc d : TomlDoc)
    (h : enableTomlDoc srv doc = (.ok, d)) :
    ∃ m' st', d = setKey doc "mcp_servers" (.table (setKey m' srv.id (.table st'))) ∧
      (∀ n, n ≠ srv.id → lookupKey m' n = tEntry doc n) ∧
      lookupKey st' "command" = some (.str "npx") ∧
      lookupKey st' "args" = some (.arr srv.args) := by
  cases hc : lookupKey doc "mcp_servers" with
  | none =>
    rw [enableTomlDoc_none srv doc hc] at h
    simp only [Prod.mk.injEq, true_and] at h
    refine ⟨[], [("command", .str "npx"), ("args", .arr srv.args)],
      ?_, ?_, by simp [lookupKey], by simp [lookupKey]⟩
    · rw [← h]; simp [setKey]
    · intro n hn; simp [lookupKey, tEntry, hc]
  | some v =>
    cases v with
    | table m =>
      cases hm : lookupKey m srv.id with
      | none =>
        rw [enableTomlDoc_table_none srv doc m hc hm] at h
        simp only [Prod.mk.injEq, true_and] at h
        refine ⟨m, [("command", .str "npx"), ("args", .arr srv.args)],
          h.symm, ?_, by simp [lookupKey], by simp [lookupKey]⟩
        intro n hn; simp [tEntry, hc]
      | some w =>
        cases w with
        | table st =>
          rw [enableTomlDoc_table_table srv doc m st hc hm] at h
          simp only [Prod.mk.injEq, true_and] at h
          refine ⟨m, setKey (setKey st "command" (.str "npx")) "args" (.arr srv.args),
            h.symm, ?_, ?_, lookup_setKey_self _ _ _⟩
          · intro n hn; simp [tEntry, hc]
          · rw [lookup_setKey_ne _ _ _ _ (by decide), lookup_setKey_self]
        | str s =>
          rw [enableTomlDoc_entry_nontable srv doc m (.str s) hc hm rfl] at h
          simp at h
        | arr xs =>
          rw [enableTomlDoc_entry_nontable srv doc m (.arr xs) hc hm rfl] at h
          simp at h
        | other =>
          rw [enableTomlDoc_entry_nontable srv doc m .other hc hm rfl] at h
          simp at h
    | str s =>
      rw [enableTomlDoc_nontable srv doc (.str s) hc rfl] at h
      simp at h
    | arr xs =>
      rw [enableTomlDoc_nontable srv doc (.arr xs) hc rfl] at h
      simp at h
    | other =>
      rw [enableTomlDoc_nontable srv doc .other hc rfl] at h
      simp at h

/-- A document already carrying the server's launch descriptor is a fixed
point of `enableTomlDoc`. -/
theorem enableTomlDoc_fixed (srv : McpServer) (d : TomlDoc) (M st : TomlDoc)
    (h1 : lookupKey d "mcp_servers" = some (.table M))
    (h2 : lookupKey M srv.id = some (.table st))
    (h3 : lookupKey st "command" = some (.str "npx"))
    (h4 : lookupKey st "args" = some (.arr srv.args)) :
    enableTomlDoc srv d = (.ok, d) := by
  rw [enableTomlDoc_table_table srv d M st h1 h2,
    setKey_of_lookup_eq st "command" (.str "npx") h3,
    setKey_of_lookup_eq st "args" (.arr srv.args) h4,
    setKey_of_lookup_eq M srv.id (.table st) h2,
    setKey_of_lookup_eq d "mcp_servers" (.table M) h1]

/-- After a successful `enableTomlDoc` the server's sub-table is present
with the launch command and arguments. -/
theorem enableTomlDoc_post (srv : McpServer) (doc d : TomlDoc)
    (h : enableTomlDoc srv doc = (.ok, d)) :
    ∃ M st, lookupKey d "mcp_servers" = some (.table M) ∧
      lookupKey M srv.id = some (.table st) ∧
      lookupKey st "command" = some (.str "npx") ∧
      lookupKey st "args" = some (.arr srv.args) := by
  obtain ⟨m', st', hd, _, h3, h4⟩ := enableTomlDoc_ok_shape srv doc d h
  exact ⟨setKey m' srv.id (.table st'), st',
    by rw [hd]; simp [lookup_setKey_self], lookup_setKey_self _ _ _, h3, h4⟩

/-- `enableTomlDoc` is idempotent on its successful results. -/
theorem enableTomlDoc_idem (srv : McpServer) (doc d : TomlDoc)
    (h : enableTomlDoc srv doc = (.ok, d)) :
    enableTomlDoc srv d = (.ok, d) := by
  obtain ⟨M, st, h1, h2, h3, h4⟩ := enableTomlDoc_post srv doc d h
  exact enableTomlDoc_fixed srv d M st h1 h2 h3 h4

/-- Frame: `enableTomlDoc` preserves every top-level key other than
`mcp_servers`. -/
theorem enableTomlDoc_frame_top (srv : McpServer) (doc d : TomlDoc)
    (h : enableTomlDoc srv doc = (.ok, d)) (k : String)
    (hk : k ≠ "mcp_servers") : lookupKey d k = lookupKey doc k := by
  obtain ⟨m', st', hd, _, _, _⟩ := enableTomlDoc_ok_shape srv doc d h
  rw [hd]
  exact lookup_setKey_ne _ _ _ _ hk

/-- Frame: `enableTomlDoc` preserves the sub-table of every sibling server
other than the enabled one. -/
theorem enableTomlDoc_frame_sib (srv : McpServer) (doc d : TomlDoc)
    (h : enableTomlDoc srv doc = (.ok, d)) (n : String) (hn : n ≠ srv.id) :
    tEntry d n = tEntry doc n := by
  obtain ⟨m', st', hd, hm', _, _⟩ := enableTomlDoc_ok_shape srv doc d h
  rw [hd]
  simp only [tEntry, lookup_setKey_self]
  rw [lookup_setKey_ne _ _ _ _ hn]
  exact hm' n hn

/-- Frame: `disableTomlDoc` preserves every top-level key other than
`mcp_servers`. -/
theorem disableTomlDoc_frame_top (srv : McpServer) (doc : TomlDoc) (k : String)
    (hk : k ≠ "mcp_servers") :
    lookupKey (disableTomlDoc srv doc) k = lookupKey doc k := by
  cases hc : lookupKey doc "mcp_servers" with
  | none => simp [disableTomlDoc, hc]
  | some v =>
    cases v with
    | table m => simp [disableTomlDoc, hc, lookup_setKey_ne _ _ _ _ hk]
    | str s => simp [disableTomlDoc, hc]
    | arr xs => simp [disableTomlDoc, hc]
    | other => simp [disableTomlDoc, hc]

/-- Frame: `disableTomlDoc` preserves the sub-table of every sibling server
other than the disabled one. -/
theorem disableTomlDoc_frame_sib (srv : McpServer) (doc : TomlDoc) (n : String)
    (hn : n ≠ srv.id) : tEntry (disableTomlDoc srv doc) n = tEntry doc n := by
  cases hc : lookupKey doc "mcp_servers" with
  | none => simp [disableTomlDoc, hc]
  | some v =>
    cases v with
    | table m =>
      simp only [disableTomlDoc, hc, tEntry, lookup_setKey_self]
      rw [lookup_removeKey_ne _ _ _ hn]
    | str s => simp [disableTomlDoc, hc]
    | arr xs => simp [disableTomlDoc, hc]
    | other => simp [disableTomlDoc, hc]

/-- After `disableTomlDoc` the server reads back as not enabled. -/
theorem disableTomlDoc_not_enabled (srv : McpServer) (doc : TomlDoc) :
    is_enabled_in_toml srv (.valid (disableTomlDoc srv doc)) = .ok false := by
  cases hc : lookupKey doc "mcp_servers" with
  | none => simp [disableTomlDoc, is_enabled_in_toml, hc]
  | some v =>
    cases v with
    | table m =>
      simp [disableTomlDoc, is_enabled_in_toml, hc, lookup_setKey_self,
        containsKey, lookup_removeKey_self]
    | str s => simp [disableTomlDoc, is_enabled_in_toml, hc]
    | arr xs => simp [disableTomlDoc, is_enabled_in_toml, hc]
    | other => simp [disableTomlDoc, is_enabled_in_toml, hc]

/-- Disabling a server with no entry in the `mcp_servers` table leaves the
parsed document unchanged. -/
theorem disableTomlDoc_noop (srv : McpServer) (doc : TomlDoc)
    (h : is_enabled_in_toml srv (.valid doc) = .ok false) :
    disableTomlDoc srv doc = doc := by
  cases hc : lookupKey doc "mcp_servers" with
  | none => simp [disableTomlDoc, hc]
  | some v =>
    cases v with
    | table m =>
      have hm : lookupKey m srv.id = none := by
        simp only [is_enabled_in_toml, hc, containsKey] at h
        cases hm' : lookupKey m srv.id with
        | none => rfl
        | some w => rw [hm'] at h; simp at h
      simp only [disableTomlDoc, hc, removeKey_of_lookup_none m srv.id hm,
        setKey_of_lookup_eq doc "mcp_servers" (.table m) hc]
    | str s => simp [disableTomlDoc, hc]
    | arr xs => simp [disableTomlDoc, hc]
    | other => simp [disableTomlDoc, hc]

/-- When the server had no entry (fresh enable), the sub-table written by
`enableTomlDoc` carries exactly `command` and `args`. -/
theorem enableTomlDoc_fresh (srv : McpServer) (doc d : TomlDoc)
    (h : enableTomlDoc srv doc = (.ok, d)) (hn : tEntry doc srv.id = none) :
    tEntry d srv.id =
      some (.table [("command", .str "npx"), ("args", .arr srv.args)]) := by
  cases hc : lookupKey doc "mcp_servers" with
  | none =>
    rw [enableTomlDoc_none srv doc hc] at h
    simp only [Prod.mk.injEq, true_and] at h
    rw [← h]
    simp [tEntry, lookup_setKey_self, lookupKey]
  | some v =>
    cases v with
    | table m =>
      have hm : lookupKey m srv.id = none := by
        simp only [tEntry, hc] at hn
        exact hn
      rw [enableTomlDoc_table_none srv doc m hc hm] at h
      simp only [Prod.mk.injEq, true_and] at h
      rw [← h]
      simp [tEntry, lookup_setKey_self]
    | str s =>
      rw [enableTomlDoc_nontable srv doc (.str s) hc rfl] at h
      simp at h
    | arr xs =>
      rw [enableTomlDoc_nontable srv doc (.arr xs) hc rfl] at h
      simp at h
    | other =>
      rw [enableTomlDoc_nontable srv doc .other hc rfl] at h
      simp at h

/-! ## File-level bridging lemmas -/

theorem enable_in_json_of_doc (sk sn : String) (srv : McpServer)
    (tv : Option String) (itf : Bool) (doc d : JValue)
    (h : enableJsonDoc sk sn (mkServerConfig srv tv itf) doc = (.ok, d)) :
    enable_in_json sk sn srv tv itf (.valid doc) = (.ok, .valid d) := by
  simp [enable_in_json, h]

theorem enable_in_json_valid_ok (sk sn : String) (srv : McpServer)
    (tv : Option String) (itf : Bool) (doc d' : JValue)
    (h : enable_in_json sk sn srv tv itf (.valid doc) = (.ok, .valid d')) :
    enableJsonDoc sk sn (mkServerConfig srv tv itf) doc = (.ok, d') := by
  rcases he : enableJsonDoc sk sn (mkServerConfig srv tv itf) doc with ⟨r, d⟩
  simp only [enable_in_json, he] at h
  cases r with
  | ok => simp_all
  | parseError => simp_all
  | panicked => simp_all

theorem enable_in_toml_of_doc (srv : McpServer) (doc d : TomlDoc)
    (h : enableTomlDoc srv doc = (.ok, d)) :
    enable_in_toml srv (.valid doc) = (.ok, .valid d) := by
  simp [enable_in_toml, h]

theorem enable_in_toml_valid_ok (srv : McpServer) (doc d' : TomlDoc)
    (h : enable_in_toml srv (.valid doc) = (.ok, .valid d')) :
    enableTomlDoc srv doc = (.ok, d') := by
  rcases he : enableTomlDoc srv doc with ⟨r, d⟩
  simp only [enable_in_toml, he] at h
  cases r with
  | ok => simp_all
  | parseError => simp_all
  | panicked => simp_all

/-- Inversion of a successful `enable_in_toml`: the document rewrite
succeeded on the parsed (or synthesized empty) document. -/
theorem enable_in_toml_ok_elim (srv : McpServer) (fs : FileState TomlDoc)
    (d₁ : TomlDoc) (h : enable_in_toml srv fs = (.ok, .valid d₁)) :
    (fs = .absent ∧ enableTomlDoc srv [] = (.ok, d₁)) ∨
    (∃ doc, fs = .valid doc ∧ enableTomlDoc srv doc = (.ok, d₁)) := by
  cases fs with
  | absent =>
    left
    rcases he : enableTomlDoc srv [] with ⟨r, d⟩
    simp only [enable_in_toml, he] at h
    cases r with
    | ok => simp_all
    | parseError => simp_all
    | panicked => simp_all
  | invalid => simp [enable_in_toml] at h
  | valid doc => exact .inr ⟨doc, rfl, enable_in_toml_valid_ok srv doc d₁ h⟩

/-- A successful `enable_in_json` always leaves a parsed file whose entry
reads back as enabled. -/
theorem enable_in_json_ok_enabled (sk sn : String) (srv : McpServer)
    (tv : Option String) (itf : Bool) (fs fs' : FileState JValue)
    (h : enable_in_json sk sn srv tv itf fs = (.ok, fs')) :
    is_enabled_in_json sk sn fs' = .ok true := by
  cases fs with
  | absent =>
    rcases he : enableJsonDoc sk sn (mkServerConfig srv tv itf) .null with ⟨r, d⟩
    simp only [enable_in_json, he] at h
    cases r with
    | ok =>
      simp only [reduceIte, Prod.mk.injEq, true_and] at h
      rw [← h]
      exact is_enabled_of_entry sk sn d _ (enableJsonDoc_post sk sn _ .null d he)
    | parseError => simp_all
    | panicked => simp_all
  | invalid => simp [enable_in_json] at h
  | valid doc =>
    rcases he : enableJsonDoc sk sn (mkServerConfig srv tv itf) doc with ⟨r, d⟩
    simp only [enable_in_json, he] at h
    cases r with
    | ok =>
      simp only [reduceIte, Prod.mk.injEq, true_and] at h
      rw [← h]
      exact is_enabled_of_entry sk sn d _ (enableJsonDoc_post sk sn _ doc d he)
    | parseError => simp_all
    | panicked => simp_all

/-- A successful `enable_in_toml` always leaves a parsed file whose entry
reads back as enabled. -/
theorem enable_in_toml_ok_enabled (srv : McpServer) (fs fs' : FileState TomlDoc)
    (h : enable_in_toml srv fs = (.ok, fs')) :
    is_enabled_in_toml srv fs' = .ok true := by
  have key : ∀ doc d, enableTomlDoc srv doc = (.ok, d) →
      is_enabled_in_toml srv (.valid d) = .ok true := by
    intro doc d hd
    obtain ⟨M, st, h1, h2, _, _⟩ := enableTomlDoc_post srv doc d hd
    simp [is_enabled_in_toml, h1, containsKey, h2]
  cases fs with
  | absent =>
    rcases he : enableTomlDoc srv [] with ⟨r, d⟩
    simp only [enable_in_toml, he] at h
    cases r with
    | ok =>
      simp only [reduceIte, Prod.mk.injEq, true_and] at h
      rw [← h]
      exact key [] d he
    | parseError => simp_all
    | panicked => simp_all
  | invalid => simp [enable_in_toml] at h
  | valid doc =>
    rcases he : enableTomlDoc srv doc with ⟨r, d⟩
    simp only [enable_in_toml, he] at h
    cases r with
    | ok =>
      simp only [reduceIte, Prod.mk.injEq, true_and] at h
      rw [← h]
      exact key doc d he
    | parseError => simp_all
    | panicked => simp_all

/-! ## Claims -/

/-- C2: for every target (JSON or TOML) and every server, when the
configuration file exists but is not syntactically valid in the target's
declared format, `enable`, `disable` and `is_enabled` all return a
`ParseError`, and none of them writes: the on-disk state is unchanged. -/
theorem c2_parse_error_propagation :
    (∀ sk sn srv tv itf, enable_in_json sk sn srv tv itf .invalid =
      (.parseError, .invalid)) ∧
    (∀ sk sn, disable_in_json sk sn .invalid = (.parseError, .invalid)) ∧
    (∀ sk sn, is_enabled_in_json sk sn .invalid = .parseError) ∧
    (∀ srv, enable_in_toml srv .invalid = (.parseError, .invalid)) ∧
    (∀ srv, disable_in_toml srv .invalid = (.parseError, .invalid)) ∧
    (∀ srv, is_enabled_in_toml srv .invalid = .parseError) :=
  ⟨fun _ _ _ _ _ => rfl, fun _ _ => rfl, fun _ _ => rfl,
   fun _ => rfl, fun _ => rfl, fun _ => rfl⟩

/-- C5: `disable` on an absent configuration file succeeds and creates no
file; on a parsed file in which the server is not enabled (its key is
missing from the servers collection/table) it succeeds and leaves the
document unchanged. -/
theorem c5_disable_absent_noop :
    (∀ sk sn, disable_in_json sk sn .absent = (.ok, .absent)) ∧
    (∀ srv, disable_in_toml srv .absent = (.ok, .absent)) ∧
    (∀ sk sn doc, is_enabled_in_json sk sn (.valid doc) = .ok false →
      disable_in_json sk sn (.valid doc) = (.ok, .valid doc)) ∧
    (∀ srv doc, is_enabled_in_toml srv (.valid doc) = .ok false →
      disable_in_toml srv (.valid doc) = (.ok, .valid doc)) := by
  refine ⟨fun _ _ => rfl, fun _ => rfl, ?_, ?_⟩
  · intro sk sn doc h
    simp [disable_in_json, disableJsonDoc_noop sk sn doc h]
  · intro srv doc h
    simp [disable_in_toml, disableTomlDoc_noop srv doc h]

/-- Witness for C5 at a concrete input: an absent file, and a parsed empty
object lacking the server's key. -/
theorem c5_disable_absent_noop_witness :
    disable_in_json "mcpServers" "linear" .absent = (.ok, .absent) ∧
    disable_in_json "mcpServers" "linear" (.valid (.obj [("foo", .str "bar")])) =
      (.ok, .valid (.obj [("foo", .str "bar")])) ∧
    disable_in_toml linear (.valid [("unrelated", .str "x")]) =
      (.ok, .valid [("unrelated", .str "x")]) :=
  ⟨c5_disable_absent_noop.1 "mcpServers" "linear",
   c5_disable_absent_noop.2.2.1 "mcpServers" "linear" (.obj [("foo", .str "bar")]) rfl,
   c5_disable_absent_noop.2.2.2 linear [("unrelated", .str "x")] rfl⟩

/-- C6: for a JSON target, enabling a server while the servers key holds a
non-object value replaces that value with an object containing only the new
sub-entry; the prior value is discarded, the call succeeds, and other
top-level keys survive. -/
theorem c6_nonobject_servers_key_replaced :
    (∀ sk sn srv tv itf doc v, jGet doc sk = some v → v.isObj = false →
      (enable_in_json sk sn srv tv itf (.valid doc)).1 = .ok) ∧
    (∀ sk sn srv tv itf doc v d', jGet doc sk = some v → v.isObj = false →
      enable_in_json sk sn srv tv itf (.valid doc) = (.ok, .valid d') →
      jGet d' sk = some (.obj [(sn, mkServerConfig srv tv itf)]) ∧
      (∀ k, k ≠ sk → jGet d' k = jGet doc k)) := by
  have key : ∀ sk sn srv tv itf (doc v : JValue), jGet doc sk = some v →
      v.isObj = false →
      ∃ m, doc = .obj m ∧ enable_in_json sk sn srv tv itf (.valid doc) =
        (.ok, .valid (.obj (setKey m sk (.obj [(sn, mkServerConfig srv tv itf)])))) := by
    intro sk sn srv tv itf doc v hv hobj
    obtain ⟨m, rfl, hm⟩ := jGet_some_inv doc sk v hv
    have hs : serversUnder m sk = [] := by
      cases v with
      | obj s => simp [JValue.isObj] at hobj
      | null => simp [serversUnder, hm]
      | bool b => simp [serversUnder, hm]
      | num n => simp [serversUnder, hm]
      | str s => simp [serversUnder, hm]
      | arr xs => simp [serversUnder, hm]
    have hdoc : enableJsonDoc sk sn (mkServerConfig srv tv itf) (.obj m) =
        (.ok, .obj (setKey m sk (.obj [(sn, mkServerConfig srv tv itf)]))) := by
      simp [enableJsonDoc, hs, setKey]
    exact ⟨m, rfl, enable_in_json_of_doc sk sn srv tv itf _ _ hdoc⟩
  constructor
  · intro sk sn srv tv itf doc v hv hobj
    obtain ⟨m, rfl, he⟩ := key sk sn srv tv itf doc v hv hobj
    rw [he]
  · intro sk sn srv tv itf doc v d' hv hobj he'
    obtain ⟨m, rfl, he⟩ := key sk sn srv tv itf doc v hv hobj
    rw [he] at he'
    have hd : d' = .obj (setKey m sk (.obj [(sn, mkServerConfig srv tv itf)])) := by
      simp only [Prod.mk.injEq, true_and, FileState.valid.injEq] at he'
      exact he'.symm
    subst hd
    refine ⟨by simp [jGet, lookup_setKey_self], ?_⟩
    intro k hk
    simp [jGet, lookup_setKey_ne _ _ _ _ hk]

/-- Witness for C6 at a concrete input: the servers key holds the string
"oops", which is discarded. -/
theorem c6_nonobject_servers_key_replaced_witness :
    (enable_in_json "mcpServers" "linear" linear none false
      (.valid (.obj [("mcpServers", .str "oops")]))).1 = .ok ∧
    jGet (.obj [("mcpServers",
        .obj [("linear", mkServerConfig linear none false)])]) "mcpServers" =
      some (.obj [("linear", mkServerConfig linear none false)]) ∧
    jGet (.obj [("mcpServers",
        .obj [("linear", mkServerConfig linear none false)])]) "foo" =
      jGet (.obj [("mcpServers", .str "oops")]) "foo" :=
  ⟨c6_nonobject_servers_key_replaced.1 "mcpServers" "linear" linear none false
    (.obj [("mcpServers", .str "oops")]) (.str "oops") rfl rfl,
   (c6_nonobject_servers_key_replaced.2 "mcpServers" "linear" linear none false
      (.obj [("mcpServers", .str "oops")]) (.str "oops")
      (.obj [("mcpServers", .obj [("linear", mkServerConfig linear none false)])])
      rfl rfl rfl).1,
   (c6_nonobject_servers_key_replaced.2 "mcpServers" "linear" linear none false
      (.obj [("mcpServers", .str "oops")]) (.str "oops")
      (.obj [("mcpServers", .obj [("linear", mkServerConfig linear none false)])])
      rfl rfl rfl).2 "foo" (by decide)⟩

/-- C1: enable and disable modify only the server's own sub-entry under the
configured servers key (JSON) or the `mcp_servers` table (TOML): every
other top-level key and every sibling server sub-entry has the same
semantic content after the operation as before it. -/
theorem c1_frame_isolation :
    (∀ sk sn srv tv itf doc d',
      enable_in_json sk sn srv tv itf (.valid doc) = (.ok, .valid d') →
      (∀ k, k ≠ sk → jGet d' k = jGet doc k) ∧
      (∀ n, n ≠ sn → jGet2 d' sk n = jGet2 doc sk n)) ∧
    (∀ sk sn doc d',
      disable_in_json sk sn (.valid doc) = (.ok, .valid d') →
      (∀ k, k ≠ sk → jGet d' k = jGet doc k) ∧
      (∀ n, n ≠ sn → jGet2 d' sk n = jGet2 doc sk n)) ∧
    (∀ srv doc d', enable_in_toml srv (.valid doc) = (.ok, .valid d') →
      (∀ k, k ≠ "mcp_servers" → lookupKey d' k = lookupKey doc k) ∧
      (∀ n, n ≠ srv.id → tEntry d' n = tEntry doc n)) ∧
    (∀ srv doc d', disable_in_toml srv (.valid doc) = (.ok, .valid d') →
      (∀ k, k ≠ "mcp_servers" → lookupKey d' k = lookupKey doc k) ∧
      (∀ n, n ≠ srv.id → tEntry d' n = tEntry doc n)) := by
  refine ⟨?_, ?_, ?_, ?_⟩
  · intro sk sn srv tv itf doc d' h
    have hd := enable_in_json_valid_ok sk sn srv tv itf doc d' h
    exact ⟨fun k hk => enableJsonDoc_frame_top sk sn _ doc d' hd k hk,
      fun n hn => enableJsonDoc_frame_sib sk sn _ doc d' hd n hn⟩
  · intro sk sn doc d' h
    have hd : d' = disableJsonDoc sk sn doc := by
      simp only [disable_in_json, Prod.mk.injEq, true_and,
        FileState.valid.injEq] at h
      exact h.symm
    subst hd
    exact ⟨fun k hk => disableJsonDoc_frame_top sk sn doc k hk,
      fun n hn => disableJsonDoc_frame_sib sk sn doc n hn⟩
  · intro srv doc d' h
    have hd := enable_in_toml_valid_ok srv doc d' h
    exact ⟨fun k hk => enableTomlDoc_frame_top srv doc d' hd k hk,
      fun n hn => enableTomlDoc_frame_sib srv doc d' hd n hn⟩
  · intro srv doc d' h
    have hd : d' = disableTomlDoc srv doc := by
      simp only [disable_in_toml, Prod.mk.injEq, true_and,
        FileState.valid.injEq] at h
      exact h.symm
    subst hd
    exact ⟨fun k hk => disableTomlDoc_frame_top srv doc k hk,
      fun n hn => disableTomlDoc_frame_sib srv doc n hn⟩

/-- Witness for C1 at a concrete input: a JSON document with an unrelated
top-level key `foo` and a sibling server `other`, and a TOML document with
an unrelated top-level key and a sibling server table, before and after
enabling and disabling `linear`. -/
theorem c1_frame_isolation_witness :
    (jGet (.obj [("foo", .str "bar"), ("mcpServers",
        .obj [("other", .obj []), ("linear", mkServerConfig linear none false)])]) "foo" =
      jGet (.obj [("foo", .str "bar"), ("mcpServers", .obj [("other", .obj [])])]) "foo") ∧
    (jGet2 (.obj [("foo", .str "bar"), ("mcpServers",
        .obj [("other", .obj []), ("linear", mkServerConfig linear none false)])]) "mcpServers" "other" =
      jGet2 (.obj [("foo", .str "bar"), ("mcpServers", .obj [("other", .obj [])])]) "mcpServers" "other") ∧
    (jGet (disableJsonDoc "mcpServers" "linear"
        (.obj [("foo", .str "bar"), ("mcpServers", .obj [("other", .obj [])])])) "foo" =
      jGet (.obj [("foo", .str "bar"), ("mcpServers", .obj [("other", .obj [])])]) "foo") ∧
    (lookupKey (disableTomlDoc linear
        [("unrelated", .str "x"), ("mcp_servers", .table [("other", .table [])])]) "unrelated" =
      lookupKey [("unrelated", .str "x"), ("mcp_servers", .table [("other", .table [])])] "unrelated") ∧
    (tEntry [("mcp_servers", .table [("other", .table []),
        ("linear", .table [("command", .str "npx"),
          ("args", .arr ["mcp-remote", "https://mcp.linear.app/mcp"])])])] "other" =
      tEntry [("mcp_servers", .table [("other", .table [])])] "other") :=
  ⟨(c1_frame_isolation.1 "mcpServers" "linear" linear none false
      (.obj [("foo", .str "bar"), ("mcpServers", .obj [("other", .obj [])])])
      (.obj [("foo", .str "bar"), ("mcpServers",
        .obj [("other", .obj []), ("linear", mkServerConfig linear none false)])])
      rfl).1 "foo" (by decide),
   (c1_frame_isolation.1 "mcpServers" "linear" linear none false
      (.obj [("foo", .str "bar"), ("mcpServers", .obj [("other", .obj [])])])
      (.obj [("foo", .str "bar"), ("mcpServers",
        .obj [("other", .obj []), ("linear", mkServerConfig linear none false)])])
      rfl).2 "other" (by decide),
   (c1_frame_isolation.2.1 "mcpServers" "linear"
      (.obj [("foo", .str "bar"), ("mcpServers", .obj [("other", .obj [])])])
      (disableJsonDoc "mcpServers" "linear"
        (.obj [("foo", .str "bar"), ("mcpServers", .obj [("other", .obj [])])]))
      rfl).1 "foo" (by decide),
   (c1_frame_isolation.2.2.2 linear
      [("unrelated", .str "x"), ("mcp_servers", .table [("other", .table [])])]
      (disableTomlDoc linear
        [("unrelated", .str "x"), ("mcp_servers", .table [("other", .table [])])])
      rfl).1 "unrelated" (by decide),
   (c1_frame_isolation.2.2.1 linear
      [("mcp_servers", .table [("other", .table [])])]
      [("mcp_servers", .table [("other", .table []),
        ("linear", .table [("command", .str "npx"),
          ("args", .arr ["mcp-remote", "https://mcp.linear.app/mcp"])])])]
      rfl).2 "other" (by decide)⟩

/-- C3: enabling a server twice in a row: the second `enable` succeeds and
reproduces the very document the first one wrote (same fields and values
for the server's sub-entry, no accumulation), and `is_enabled` is true
after either call. -/
theorem c3_enable_idempotent :
    (∀ sk sn srv tv itf fs d₁,
      enable_in_json sk sn srv tv itf fs = (.ok, .valid d₁) →
      enable_in_json sk sn srv tv itf (.valid d₁) = (.ok, .valid d₁) ∧
      is_enabled_in_json sk sn (.valid d₁) = .ok true) ∧
    (∀ srv fs d₁, enable_in_toml srv fs = (.ok, .valid d₁) →
      enable_in_toml srv (.valid d₁) = (.ok, .valid d₁) ∧
      is_enabled_in_toml srv (.valid d₁) = .ok true) := by
  constructor
  · intro sk sn srv tv itf fs d₁ h
    have hdoc : enableJsonDoc sk sn (mkServerConfig srv tv itf) d₁ = (.ok, d₁) := by
      rcases enable_in_json_ok_elim sk sn srv tv itf fs d₁ h with
        ⟨_, hd⟩ | ⟨doc, _, hd⟩
      · exact enableJsonDoc_idem sk sn _ .null d₁ hd
      · exact enableJsonDoc_idem sk sn _ doc d₁ hd
    exact ⟨enable_in_json_of_doc sk sn srv tv itf d₁ d₁ hdoc,
      is_enabled_of_entry sk sn d₁ _ (enableJsonDoc_post sk sn _ d₁ d₁ hdoc)⟩
  · intro srv fs d₁ h
    have hdoc : enableTomlDoc srv d₁ = (.ok, d₁) := by
      rcases enable_in_toml_ok_elim srv fs d₁ h with ⟨_, hd⟩ | ⟨doc, _, hd⟩
      · exact enableTomlDoc_idem srv [] d₁ hd
      · exact enableTomlDoc_idem srv doc d₁ hd
    obtain ⟨M, st, h1, h2, _, _⟩ := enableTomlDoc_post srv d₁ d₁ hdoc
    exact ⟨enable_in_toml_of_doc srv d₁ d₁ hdoc,
      by simp [is_enabled_in_toml, h1, containsKey, h2]⟩

/-- Witness for C3 at a concrete input: enabling `linear` on an absent JSON
file and an absent TOML file, then enabling it again. -/
theorem c3_enable_idempotent_witness :
    (enable_in_json "mcpServers" "linear" linear (some "stdio") false
        (.valid (.obj [("mcpServers",
          .obj [("linear", mkServerConfig linear (some "stdio") false)])])) =
      (.ok, .valid (.obj [("mcpServers",
        .obj [("linear", mkServerConfig linear (some "stdio") false)])])) ∧
      is_enabled_in_json "mcpServers" "linear"
        (.valid (.obj [("mcpServers",
          .obj [("linear", mkServerConfig linear (some "stdio") false)])])) = .ok true) ∧
    (enable_in_toml linear
        (.valid [("mcp_servers", .table [("linear", .table
          [("command", .str "npx"),
           ("args", .arr ["mcp-remote", "https://mcp.linear.app/mcp"])])])]) =
      (.ok, .valid [("mcp_servers", .table [("linear", .table
        [("command", .str "npx"),
         ("args", .arr ["mcp-remote", "https://mcp.linear.app/mcp"])])])]) ∧
      is_enabled_in_toml linear
        (.valid [("mcp_servers", .table [("linear", .table
          [("command", .str "npx"),
           ("args", .arr ["mcp-remote", "https://mcp.linear.app/mcp"])])])]) = .ok true) :=
  ⟨c3_enable_idempotent.1 "mcpServers" "linear" linear (some "stdio") false .absent
    (.obj [("mcpServers", .obj [("linear", mkServerConfig linear (some "stdio") false)])])
    rfl,
   c3_enable_idempotent.2 linear .absent
    [("mcp_servers", .table [("linear", .table
      [("command", .str "npx"),
       ("args", .arr ["mcp-remote", "https://mcp.linear.app/mcp"])])])]
    rfl⟩

/-- C4: round-trip, for every target and server.  A completed
`enable_server` makes `is_server_enabled` return `Ok(true)`; from an absent
or parseable file of the target's format, `disable_server` succeeds and
makes `is_server_enabled` return `Ok(false)`. -/
theorem c4_round_trip :
    (∀ t s cs cs', McpTarget.enable_server t s cs = (.ok, cs') →
      McpTarget.is_server_enabled t s cs' = .ok true) ∧
    (∀ t s cs r cs', t.config_method.matchesState cs = true →
      cs.readable = true → McpTarget.disable_server t s cs = (r, cs') →
      r = .ok ∧ McpTarget.is_server_enabled t s cs' = .ok false) := by
  constructor
  · intro t s cs cs' h
    cases cs with
    | json fs =>
      cases hcm : t.config_method with
      | jsonConfig p sk ov tv itf =>
        rcases he : enable_in_json sk (ov.getD s.id) s tv itf fs with ⟨r, fs'⟩
        simp only [McpTarget.enable_server, hcm, he] at h
        cases r with
        | ok =>
          simp only [Prod.mk.injEq, true_and] at h
          rw [← h]
          simp only [McpTarget.is_server_enabled, hcm]
          exact enable_in_json_ok_enabled sk (ov.getD s.id) s tv itf fs fs' he
        | parseError => simp at h
        | panicked => simp at h
      | tomlConfig p => simp [McpTarget.enable_server, hcm] at h
    | toml fs =>
      cases hcm : t.config_method with
      | tomlConfig p =>
        rcases he : enable_in_toml s fs with ⟨r, fs'⟩
        simp only [McpTarget.enable_server, hcm, he] at h
        cases r with
        | ok =>
          simp only [Prod.mk.injEq, true_and] at h
          rw [← h]
          simp only [McpTarget.is_server_enabled, hcm]
          exact enable_in_toml_ok_enabled s fs fs' he
        | parseError => simp at h
        | panicked => simp at h
      | jsonConfig p sk ov tv itf => simp [McpTarget.enable_server, hcm] at h
  · intro t s cs r cs' hm hr h
    cases cs with
    | json fs =>
      cases hcm : t.config_method with
      | tomlConfig p => rw [hcm] at hm; simp [ConfigMethod.matchesState] at hm
      | jsonConfig p sk ov tv itf =>
        cases fs with
        | invalid => simp [ConfigState.readable] at hr
        | absent =>
          simp only [McpTarget.disable_server, hcm, disable_in_json,
            Prod.mk.injEq] at h
          refine ⟨h.1.symm, ?_⟩
          rw [← h.2]
          simp [McpTarget.is_server_enabled, hcm, is_enabled_in_json]
        | valid doc =>
          simp only [McpTarget.disable_server, hcm, disable_in_json,
            Prod.mk.injEq] at h
          refine ⟨h.1.symm, ?_⟩
          rw [← h.2]
          simp only [McpTarget.is_server_enabled, hcm]
          exact disableJsonDoc_not_enabled sk (ov.getD s.id) doc
    | toml fs =>
      cases hcm : t.config_method with
      | jsonConfig p sk ov tv itf =>
        rw [hcm] at hm; simp [ConfigMethod.matchesState] at hm
      | tomlConfig p =>
        cases fs with
        | invalid => simp [ConfigState.readable] at hr
        | absent =>
          simp only [McpTarget.disable_server, hcm, disable_in_toml,
            Prod.mk.injEq] at h
          refine ⟨h.1.symm, ?_⟩
          rw [← h.2]
          simp [McpTarget.is_server_enabled, hcm, is_enabled_in_toml]
        | valid doc =>
          simp only [McpTarget.disable_server, hcm, disable_in_toml,
            Prod.mk.injEq] at h
          refine ⟨h.1.symm, ?_⟩
          rw [← h.2]
          simp only [McpTarget.is_server_enabled, hcm]
          exact disableTomlDoc_not_enabled s doc

/-- Witness for C4 at a concrete input: `linear` on Claude Code (JSON, from
an absent file) and on Codex CLI (TOML, from an absent file). -/
theorem c4_round_trip_witness :
    McpTarget.is_server_enabled claude_code linear (.json (.valid (.obj [("mcpServers",
      .obj [("linear", mkServerConfig linear (some "stdio") false)])]))) = .ok true ∧
    (OpRes.ok = OpRes.ok ∧
      McpTarget.is_server_enabled claude_code linear (.json .absent) = .ok false) ∧
    McpTarget.is_server_enabled codex_cli linear (.toml (.valid [("mcp_servers",
      .table [("linear", .table [("command", .str "npx"),
        ("args", .arr ["mcp-remote", "https://mcp.linear.app/mcp"])])])])) = .ok true ∧
    (OpRes.ok = OpRes.ok ∧
      McpTarget.is_server_enabled codex_cli linear (.toml .absent) = .ok false) :=
  ⟨c4_round_trip.1 claude_code linear (.json .absent)
    (.json (.valid (.obj [("mcpServers",
      .obj [("linear", mkServerConfig linear (some "stdio") false)])]))) rfl,
   c4_round_trip.2 claude_code linear (.json .absent) .ok (.json .absent) rfl rfl rfl,
   c4_round_trip.1 codex_cli linear (.toml .absent)
    (.toml (.valid [("mcp_servers",
      .table [("linear", .table [("command", .str "npx"),
        ("args", .arr ["mcp-remote", "https://mcp.linear.app/mcp"])])])])) rfl,
   c4_round_trip.2 codex_cli linear (.toml .absent) .ok (.toml .absent) rfl rfl rfl⟩

/-- A successful `enable_in_json` leaves exactly the built sub-entry at
`servers_key.server_name`, whatever the starting file state was. -/
theorem enable_in_json_ok_entry (sk sn : String) (srv : McpServer)
    (tv : Option String) (itf : Bool) (fs : FileState JValue) (d' : JValue)
    (h : enable_in_json sk sn srv tv itf fs = (.ok, .valid d')) :
    jGet2 d' sk sn = some (mkServerConfig srv tv itf) := by
  rcases enable_in_json_ok_elim sk sn srv tv itf fs d' h with ⟨_, hd⟩ | ⟨doc, _, hd⟩
  · exact enableJsonDoc_post sk sn _ .null d' hd
  · exact enableJsonDoc_post sk sn _ doc d' hd

/-- A successful `enable_in_toml` leaves the server's sub-table with
`command = "npx"` and `args = server.args`, whatever the starting file
state was. -/
theorem enable_in_toml_ok_entry (srv : McpServer) (fs : FileState TomlDoc)
    (d' : TomlDoc) (h : enable_in_toml srv fs = (.ok, .valid d')) :
    tEntryField d' srv.id "command" = some (.str "npx") ∧
    tEntryField d' srv.id "args" = some (.arr srv.args) := by
  have key : ∀ doc, enableTomlDoc srv doc = (.ok, d') →
      tEntryField d' srv.id "command" = some (.str "npx") ∧
      tEntryField d' srv.id "args" = some (.arr srv.args) := by
    intro doc hd
    obtain ⟨M, st, h1, h2, h3, h4⟩ := enableTomlDoc_post srv doc d' hd
    constructor <;> simp [tEntryField, tEntry, h1, h2, h3, h4]
  rcases enable_in_toml_ok_elim srv fs d' h with ⟨_, hd⟩ | ⟨doc, _, hd⟩
  · exact key [] hd
  · exact key doc hd

/-- C7 counterexample: a TOML file whose `linear` sub-table already carries
an unrelated key `foo`.  Enabling `linear` keeps `foo`, so the resulting
text-table entry does not carry only `command` and `args`. -/
theorem c7_counterexample :
    enable_in_toml linear (.valid
        [("mcp_servers", .table [("linear", .table [("foo", .str "bar")])])]) =
      (.ok, .valid [("mcp_servers", .table [("linear", .table
        [("foo", .str "bar"), ("command", .str "npx"),
         ("args", .arr ["mcp-remote", "https://mcp.linear.app/mcp"])])])]) ∧
    tEntryField [("mcp_servers", .table [("linear", .table
        [("foo", .str "bar"), ("command", .str "npx"),
         ("args", .arr ["mcp-remote", "https://mcp.linear.app/mcp"])])])]
      "linear" "foo" = some (.str "bar") :=
  ⟨rfl, rfl⟩

/-- C7 (amended): enable writes the sub-entry under
`server_name_override.unwrap_or(server.id)` (JSON) or the server id (TOML).
The JSON sub-entry is exactly `mkServerConfig`: `command = "npx"`, `args =
server.args`, a `type` field exactly when `type_value` is set, an empty
`env` exactly when that type is `"stdio"`, and `tools = ["*"]` exactly when
`include_tools_field`.  The TOML sub-table gets `command = "npx"` and
`args = server.args`; it carries only `command` and `args` when the server
had no prior entry, while a pre-existing entry keeps its other keys. -/
theorem c7_launch_descriptor :
    (∀ t s p sk ov tv itf fs d',
      t.config_method = .jsonConfig p sk ov tv itf →
      McpTarget.enable_server t s (.json fs) = (.ok, .json (.valid d')) →
      jGet2 d' sk (ov.getD s.id) = some (mkServerConfig s tv itf)) ∧
    (∀ s tv itf,
      jGet (mkServerConfig s tv itf) "command" = some (.str "npx") ∧
      jGet (mkServerConfig s tv itf) "args" = some (.arr (s.args.map .str)) ∧
      jGet (mkServerConfig s tv itf) "type" = tv.map .str ∧
      jGet (mkServerConfig s tv itf) "env" =
        (if tv = some "stdio" then some (.obj []) else none) ∧
      jGet (mkServerConfig s tv itf) "tools" =
        (if itf then some (.arr [.str "*"]) else none)) ∧
    (∀ srv fs d', enable_in_toml srv fs = (.ok, .valid d') →
      tEntryField d' srv.id "command" = some (.str "npx") ∧
      tEntryField d' srv.id "args" = some (.arr srv.args)) ∧
    (∀ srv fs d', enable_in_toml srv fs = (.ok, .valid d') →
      (fs = .absent ∨ (∃ doc, fs = .valid doc ∧ tEntry doc srv.id = none)) →
      tEntry d' srv.id =
        some (.table [("command", .str "npx"), ("args", .arr srv.args)])) := by
  refine ⟨?_, ?_, fun srv fs d' h => enable_in_toml_ok_entry srv fs d' h, ?_⟩
  · intro t s p sk ov tv itf fs d' hcm h
    rcases he : enable_in_json sk (ov.getD s.id) s tv itf fs with ⟨r, fs'⟩
    simp only [McpTarget.enable_server, hcm, he] at h
    cases r with
    | ok =>
      simp only [Prod.mk.injEq, true_and, ConfigState.json.injEq] at h
      rw [h] at he
      exact enable_in_json_ok_entry sk (ov.getD s.id) s tv itf fs d' he
    | parseError => simp at h
    | panicked => simp at h
  · intro s tv itf
    cases tv with
    | none => cases itf <;> simp [mkServerConfig, jGet, setKey, lookupKey]
    | some t =>
      by_cases ht : t = "stdio" <;>
        cases itf <;> simp [mkServerConfig, jGet, setKey, lookupKey, ht]
  · intro srv fs d' h hfresh
    rcases enable_in_toml_ok_elim srv fs d' h with ⟨hfs, hd⟩ | ⟨doc, hfs, hd⟩
    · exact enableTomlDoc_fresh srv [] d' hd rfl
    · rcases hfresh with hab | ⟨doc', hv, hn⟩
      · rw [hab] at hfs; cases hfs
      · rw [hfs] at hv
        have hdd : doc = doc' := by injection hv
        subst hdd
        exact enableTomlDoc_fresh srv doc d' hd hn

/-- Witness for C7 (amended) at a concrete input: Copilot CLI (type
"local", tools field) from an absent file, and `linear` on an absent TOML
file. -/
theorem c7_launch_descriptor_witness :
    jGet2 (.obj [("mcpServers",
        .obj [("linear", mkServerConfig linear (some "local") true)])])
      "mcpServers" "linear" = some (mkServerConfig linear (some "local") true) ∧
    jGet (mkServerConfig linear (some "local") true) "type" =
      (some "local").map JValue.str ∧
    jGet (mkServerConfig linear (some "local") true) "env" =
      (if (some "local" : Option String) = some "stdio"
       then some (.obj []) else none) ∧
    tEntryField [("mcp_servers", .table [("linear", .table [("command", .str "npx"),
        ("args", .arr ["mcp-remote", "https://mcp.linear.app/mcp"])])])]
      "linear" "command" = some (.str "npx") ∧
    tEntry [("mcp_servers", .table [("linear", .table [("command", .str "npx"),
        ("args", .arr ["mcp-remote", "https://mcp.linear.app/mcp"])])])]
      "linear" = some (.table [("command", .str "npx"),
        ("args", .arr linear.args)]) :=
  ⟨c7_launch_descriptor.1 copilot_cli linear "~/.copilot/mcp-config.json"
    "mcpServers" none (some "local") true .absent
    (.obj [("mcpServers", .obj [("linear", mkServerConfig linear (some "local") true)])])
    rfl rfl,
   (c7_launch_descriptor.2.1 linear (some "local") true).2.2.1,
   (c7_launch_descriptor.2.1 linear (some "local") true).2.2.2.1,
   (c7_launch_descriptor.2.2.1 linear .absent
     [("mcp_servers", .table [("linear", .table [("command", .str "npx"),
        ("args", .arr ["mcp-remote", "https://mcp.linear.app/mcp"])])])] rfl).1,
   c7_launch_descriptor.2.2.2 linear .absent
     [("mcp_servers", .table [("linear", .table [("command", .str "npx"),
        ("args", .arr ["mcp-remote", "https://mcp.linear.app/mcp"])])])] rfl
     (.inl rfl)⟩

/-! ## Status-probe lemmas -/

theorem mem_statusRow (env : Env) (t : McpTarget) (s : McpServer)
    (ss : List McpServer) (hs : s ∈ ss) :
    ((t.name, s.id), statusOf env t s) ∈ statusRow env t ss := by
  induction hs with
  | head as => exact .head _
  | tail b hb ih => exact .tail _ ih

theorem mem_check_statuses (env : Env) (servers : List McpServer)
    (ts : List McpTarget) (t : McpTarget) (s : McpServer)
    (ht : t ∈ ts) (hs : s ∈ servers) :
    ((t.name, s.id), statusOf env t s) ∈ check_statuses_parallel env ts servers := by
  induction ht with
  | head as => exact List.mem_append_left _ (mem_statusRow env t s servers hs)
  | tail b hb ih => exact List.mem_append_right _ ih

/-- C8: the probe result has an entry for every (target, server) pair; the
entry is `NotInstalled` whenever the target is not installed, and otherwise
follows `is_server_enabled`: `Ok(true) -> Enabled`, `Ok(false) -> Disabled`,
error -> `Unknown`. -/
theorem c8_status_probe :
    ∀ env targets servers (t : McpTarget) (s : McpServer),
      t ∈ targets → s ∈ servers →
      ((t.name, s.id), statusOf env t s) ∈
        check_statuses_parallel env targets servers ∧
      (env.isInstalled t = false → statusOf env t s = .notInstalled) ∧
      (env.isInstalled t = true →
        (McpTarget.is_server_enabled t s (env.getConfig t) = .ok true →
          statusOf env t s = .enabled) ∧
        (McpTarget.is_server_enabled t s (env.getConfig t) = .ok false →
          statusOf env t s = .disabled) ∧
        (McpTarget.is_server_enabled t s (env.getConfig t) = .parseError →
          statusOf env t s = .unknown)) := by
  intro env targets servers t s ht hs
  refine ⟨mem_check_statuses env servers targets t s ht hs, ?_, ?_⟩
  · intro hI; simp [statusOf, hI]
  · intro hI
    exact ⟨fun he => by simp [statusOf, hI, he],
      fun he => by simp [statusOf, hI, he],
      fun he => by simp [statusOf, hI, he]⟩

/-- Witness for C8 at a concrete input: Claude Code installed with no
configuration file yet (probe says Disabled), Codex CLI not installed. -/
theorem c8_status_probe_witness :
    (("Claude Code", "linear"),
        statusOf ⟨["Claude Code"], []⟩ claude_code linear) ∈
      check_statuses_parallel ⟨["Claude Code"], []⟩ targetsCatalog serversCatalog ∧
    ((⟨["Claude Code"], []⟩ : Env).isInstalled codex_cli = false →
      statusOf ⟨["Claude Code"], []⟩ codex_cli linear = .notInstalled) ∧
    ((⟨["Claude Code"], []⟩ : Env).isInstalled claude_code = true →
      (McpTarget.is_server_enabled claude_code linear
          ((⟨["Claude Code"], []⟩ : Env).getConfig claude_code) = .ok true →
        statusOf ⟨["Claude Code"], []⟩ claude_code linear = .enabled) ∧
      (McpTarget.is_server_enabled claude_code linear
          ((⟨["Claude Code"], []⟩ : Env).getConfig claude_code) = .ok false →
        statusOf ⟨["Claude Code"], []⟩ claude_code linear = .disabled) ∧
      (McpTarget.is_server_enabled claude_code linear
          ((⟨["Claude Code"], []⟩ : Env).getConfig claude_code) = .parseError →
        statusOf ⟨["Claude Code"], []⟩ claude_code linear = .unknown)) :=
  ⟨(c8_status_probe ⟨["Claude Code"], []⟩ targetsCatalog serversCatalog
      claude_code linear (by simp [targetsCatalog]) (by simp [serversCatalog])).1,
   (c8_status_probe ⟨["Claude Code"], []⟩ targetsCatalog serversCatalog
      codex_cli linear (by simp [targetsCatalog]) (by simp [serversCatalog])).2.1,
   (c8_status_probe ⟨["Claude Code"], []⟩ targetsCatalog serversCatalog
      claude_code linear (by simp [targetsCatalog]) (by simp [serversCatalog])).2.2⟩

/-- C9: `handle_enable` and `handle_disable` resolve the selector "all" to
the full catalog and any other selector to the single server with that id;
an unknown selector fails with the unknown-server error before any target
is visited, leaving every configuration file untouched. -/
theorem c9_selector_resolution :
    resolveServers "all" = some serversCatalog ∧
    (∀ sel s, sel ≠ "all" → findServer sel = some s →
      resolveServers sel = some [s]) ∧
    (∀ sel targets env, sel ≠ "all" → findServer sel = none →
      handle_enable sel targets env = (.unknownServer, env) ∧
      handle_disable sel targets env = (.unknownServer, env)) := by
  refine ⟨rfl, ?_, ?_⟩
  · intro sel s hne hf
    simp [resolveServers, hne, hf]
  · intro sel targets env hne hf
    constructor
    · simp [handle_enable, resolveServers, hne, hf]
    · simp [handle_disable, resolveServers, hne, hf]

/-- Witness for C9 at a concrete input: the selectors "all", "linear" and
"not-a-server" against the full target catalog and an empty environment. -/
theorem c9_selector_resolution_witness :
    resolveServers "all" = some serversCatalog ∧
    resolveServers "linear" = some [linear] ∧
    handle_enable "not-a-server" targetsCatalog ⟨[], []⟩ =
      (.unknownServer, ⟨[], []⟩) ∧
    handle_disable "not-a-server" targetsCatalog ⟨[], []⟩ =
      (.unknownServer, ⟨[], []⟩) :=
  ⟨c9_selector_resolution.1,
   c9_selector_resolution.2.1 "linear" linear (by decide) rfl,
   (c9_selector_resolution.2.2 "not-a-server" targetsCatalog ⟨[], []⟩
     (by decide) rfl).1,
   (c9_selector_resolution.2.2 "not-a-server" targetsCatalog ⟨[], []⟩
     (by decide) rfl).2⟩

/-- C10 counterexample: a parsed TOML file where the `linear` entry under
`mcp_servers` is a string, not a table.  `is_enabled` reports the server as
enabled (Ok(true)) and `disable` removes the entry — neither treats the
server as absent, contrary to the claim's parenthetical. -/
theorem c10_counterexample :
    is_enabled_in_toml linear
        (.valid [("mcp_servers", .table [("linear", .str "mislabelled")])]) =
      .ok true ∧
    disable_in_toml linear
        (.valid [("mcp_servers", .table [("linear", .str "mislabelled")])]) =
      (.ok, .valid [("mcp_servers", .table [])]) :=
  ⟨rfl, rfl⟩

/-- C10 (amended): on a parsed TOML file whose `mcp_servers` item, or whose
server entry under it, is not a table, `enable` panics (the `unwrap` of
`as_table_mut`) without writing, while `disable` and `is_enabled` do not
panic and return success.  With a non-table `mcp_servers` both treat the
server as absent (`Ok(false)`, no-op); with a non-table server entry
`is_enabled` returns `Ok(true)` and `disable` removes the entry. -/
theorem c10_toml_nontable_panic :
    (∀ srv doc v, lookupKey doc "mcp_servers" = some v → v.isTable = false →
      enable_in_toml srv (.valid doc) = (.panicked, .valid doc) ∧
      disable_in_toml srv (.valid doc) = (.ok, .valid doc) ∧
      is_enabled_in_toml srv (.valid doc) = .ok false) ∧
    (∀ srv doc m v, lookupKey doc "mcp_servers" = some (.table m) →
      lookupKey m srv.id = some v → v.isTable = false →
      enable_in_toml srv (.valid doc) = (.panicked, .valid doc) ∧
      disable_in_toml srv (.valid doc) =
        (.ok, .valid (setKey doc "mcp_servers" (.table (removeKey m srv.id)))) ∧
      is_enabled_in_toml srv (.valid doc) = .ok true) := by
  constructor
  · intro srv doc v hc hv
    have he := enableTomlDoc_nontable srv doc v hc hv
    refine ⟨by simp [enable_in_toml, he], ?_, ?_⟩
    · cases v with
      | table m => simp [TItem.isTable] at hv
      | str s => simp [disable_in_toml, disableTomlDoc, hc]
      | arr xs => simp [disable_in_toml, disableTomlDoc, hc]
      | other => simp [disable_in_toml, disableTomlDoc, hc]
    · cases v with
      | table m => simp [TItem.isTable] at hv
      | str s => simp [is_enabled_in_toml, hc]
      | arr xs => simp [is_enabled_in_toml, hc]
      | other => simp [is_enabled_in_toml, hc]
  · intro srv doc m v hc hm hv
    have he := enableTomlDoc_entry_nontable srv doc m v hc hm hv
    exact ⟨by simp [enable_in_toml, he],
      by simp [disable_in_toml, disableTomlDoc, hc],
      by simp [is_enabled_in_toml, hc, containsKey, hm]⟩

/-- Witness for C10 (amended) at concrete inputs: `mcp_servers = "y"`, and
`mcp_servers.linear = "x"`. -/
theorem c10_toml_nontable_panic_witness :
    (enable_in_toml linear (.valid [("mcp_servers", .str "y")]) =
      (.panicked, .valid [("mcp_servers", .str "y")]) ∧
     disable_in_toml linear (.valid [("mcp_servers", .str "y")]) =
      (.ok, .valid [("mcp_servers", .str "y")]) ∧
     is_enabled_in_toml linear (.valid [("mcp_servers", .str "y")]) = .ok false) ∧
    (enable_in_toml linear
        (.valid [("mcp_servers", .table [("linear", .str "x")])]) =
      (.panicked, .valid [("mcp_servers", .table [("linear", .str "x")])]) ∧
     disable_in_toml linear
        (.valid [("mcp_servers", .table [("linear", .str "x")])]) =
      (.ok, .valid (setKey [("mcp_servers", .table [("linear", .str "x")])]
        "mcp_servers" (.table (removeKey [("linear", .str "x")] "linear")))) ∧
     is_enabled_in_toml linear
        (.valid [("mcp_servers", .table [("linear", .str "x")])]) = .ok true) :=
  ⟨c10_toml_nontable_panic.1 linear [("mcp_servers", .str "y")] (.str "y") rfl rfl,
   c10_toml_nontable_panic.2 linear [("mcp_servers", .table [("linear", .str "x")])]
     [("linear", .str "x")] (.str "x") rfl rfl rfl⟩

end AiCli
